import Mathlib

/-!
# Verification of the TOC subsystem of the yamlforms PDF generator

Shallow embedding of `src/generators/toc-utils.ts` and
`src/generators/pdf/toc.ts`: the TOC extractor and numberer, the
page-number matcher, the TOC page allocator and the page-offset
adjuster.  JavaScript arrays become `List`s, in-place mutation becomes
explicit state passing, `undefined`-able fields become `Option`s, and
the JS numbers holding page geometry become rationals (`ℚ`), with
`Rat.floor`/`Rat.ceil` standing for `Math.floor`/`Math.ceil`.
-/

set_option maxHeartbeats 1000000

namespace PdfGen

/-! ## Data model -/

/-- The `type` tag of a drawn element recorded by the flow layout engine
(`DrawnElement` in `pdf/layout.ts`).  The page-number matcher only
discriminates `heading` and `title`. -/
inductive DrawnKind where
  | heading
  | title
  | paragraph
  | table
  | field
  | admonition
  | rule
  | spacer
deriving DecidableEq, Repr

/-- One record of the drawn-element log: `{type, content, page}` with
`page` 1-indexed and absolute (a cover page, when present, is page 1).
The `position` field of the source record is irrelevant to the TOC
subsystem and omitted. -/
structure DrawnElement where
  type : DrawnKind
  content : String
  page : Nat
deriving DecidableEq, Repr

/-- `SchemaContentElement`, the tagged content union.  Only the
`heading` variant carries data the TOC subsystem reads; the payloads of
the other variants are irrelevant here and dropped. -/
inductive ContentElement where
  | heading (level : Nat) (text : String)
  | paragraph (text : String)
  | table
  | field
  | admonition
  | rule
  | spacer
deriving DecidableEq, Repr

/-- Raw, possibly-partial TOC configuration (`TableOfContents` in
`types/schema.ts`); absent fields are `none`. -/
structure TableOfContents where
  enabled : Option Bool := none
  title : Option String := none
  minLevel : Option Nat := none
  maxLevel : Option Nat := none
  numbered : Option Bool := none
  showPageNumbers : Option Bool := none
deriving DecidableEq, Repr

/-- Fully-defaulted TOC configuration (`ResolvedTocConfig`). -/
structure ResolvedTocConfig where
  enabled : Bool
  title : String
  minLevel : Nat
  maxLevel : Nat
  numbered : Bool
  showPageNumbers : Bool
deriving DecidableEq, Repr

/-- A single TOC entry (`TocEntry`): `numbering` is filled in by
`assignNumbering`, `pageNumber` by the page-number matcher. -/
structure TocEntry where
  text : String
  level : Nat
  anchorId : String
  numbering : Option String := none
  pageNumber : Option Nat := none
deriving DecidableEq, Repr

/-! ## `resolveTocConfig` (toc-utils.ts lines 33-48) -/

/-- `resolveTocConfig`: `null` when the TOC is absent or explicitly
disabled, otherwise the defaults merged over the raw configuration. -/
def resolveTocConfig : Option TableOfContents → Option ResolvedTocConfig
  | none => none
  | some toc =>
    if toc.enabled = some false then none
    else some {
      enabled := toc.enabled != some false
      title := toc.title.getD "Table of Contents"
      minLevel := toc.minLevel.getD 1
      maxLevel := toc.maxLevel.getD 3
      numbered := toc.numbered.getD false
      showPageNumbers := toc.showPageNumbers != some false }

/-! ## `generateAnchorId` (toc-utils.ts lines 114-121)

The source applies, in order: `toLowerCase()`, strip `[^\w\s-]`,
replace `\s+` runs with `-`, collapse `-+` runs to `-`, strip `^-|-$`.
`\w` and the case mapping are modelled over Basic Latin (the character
classes of the source regexes are ASCII-only); `\s` is the JS
whitespace class. -/

/-- JS `\w`: ASCII digits `0-9`, letters `A-Z` and `a-z`, and `_`
(code points 48-57, 65-90, 97-122 and 95). -/
def jsIsWordChar (c : Char) : Bool :=
  (48 ≤ c.toNat && c.toNat ≤ 57) || (65 ≤ c.toNat && c.toNat ≤ 90) ||
  (97 ≤ c.toNat && c.toNat ≤ 122) || c.toNat = 95

/-- JS `\s`: tab, LF, VT, FF, CR, space, NBSP, and the Unicode
space-separator / line-separator characters matched by the class. -/
def jsIsSpace (c : Char) : Bool :=
  c.toNat = 0x20 || c.toNat = 0x09 || c.toNat = 0x0A || c.toNat = 0x0D ||
  c.toNat = 0x0B || c.toNat = 0x0C || c.toNat = 0xA0 || c.toNat = 0x1680 ||
  (0x2000 ≤ c.toNat && c.toNat ≤ 0x200A) ||
  c.toNat = 0x2028 || c.toNat = 0x2029 || c.toNat = 0x202F ||
  c.toNat = 0x205F || c.toNat = 0x3000 || c.toNat = 0xFEFF

/-- Kept by the `[^\w\s-]` removal pass. -/
def keepAnchorChar (c : Char) : Bool :=
  jsIsWordChar c || jsIsSpace c || c = '-'

/-- Replace each maximal run of characters satisfying `p` by the single
character `rep`; the flag records whether the previous character was
inside a run (models one global-regex run-replacement pass). -/
def collapseRuns (p : Char → Bool) (rep : Char) : Bool → List Char → List Char
  | _, [] => []
  | inRun, c :: cs =>
    if p c then
      if inRun then collapseRuns p rep true cs
      else rep :: collapseRuns p rep true cs
    else c :: collapseRuns p rep false cs

/-- Remove one leading hyphen, as matched by the `^-` alternative. -/
def dropLeadHyphen : List Char → List Char
  | [] => []
  | c :: cs => if c = '-' then cs else c :: cs

/-- Remove one trailing hyphen, as matched by the `-$` alternative. -/
def dropTrailHyphen (cs : List Char) : List Char :=
  (dropLeadHyphen cs.reverse).reverse

/-- The character-list pipeline of `generateAnchorId`, in source order:
lowercase, strip `[^\w\s-]`, whitespace runs to `-`, collapse `-+`,
strip `^-|-$`. -/
def anchorPipeline (cs : List Char) : List Char :=
  dropTrailHyphen (dropLeadHyphen
    (collapseRuns (fun c => c = '-') '-' false
      (collapseRuns jsIsSpace '-' false
        ((cs.map Char.toLower).filter keepAnchorChar))))

/-- `generateAnchorId`: slugify heading text into a URL-safe anchor. -/
def generateAnchorId (text : String) : String :=
  String.mk (anchorPipeline text.toList)

/-! ## `extractTocEntries` (toc-utils.ts lines 54-73) -/

/-- Loop body of `extractTocEntries`: skip non-headings, skip headings
outside `[minLevel, maxLevel]`, otherwise emit an entry. -/
def extractTocEntriesAux (config : ResolvedTocConfig) : List ContentElement → List TocEntry
  | [] => []
  | ContentElement.heading level text :: rest =>
    if level < config.minLevel ∨ level > config.maxLevel then
      extractTocEntriesAux config rest
    else
      { text := text, level := level, anchorId := generateAnchorId text }
        :: extractTocEntriesAux config rest
  | _ :: rest => extractTocEntriesAux config rest

/-- `extractTocEntries`: one forward pass over the original content. -/
def extractTocEntries (content : List ContentElement) (config : ResolvedTocConfig) : List TocEntry :=
  extractTocEntriesAux config content

/-! ## `assignNumbering` (toc-utils.ts lines 79-108) -/

/-- `counters[depth]++` followed by the reset loop that zeroes every
deeper counter (source lines 92-97).  Levels are 1..6 in the schema, so
`depth` stays below the counter array's length 7. -/
def bumpCounters : List Nat → Nat → List Nat
  | [], _ => []
  | c :: cs, 0 => (c + 1) :: cs.map (fun _ => 0)
  | c :: cs, d + 1 => c :: bumpCounters cs d

/-- `parts.join('.')` over `counters[0..depth]` (source lines 100-104). -/
def numberingString (counters : List Nat) (depth : Nat) : String :=
  String.intercalate "." ((counters.take (depth + 1)).map Nat.repr)

/-- `Math.min(...entries.map(e => e.level))` for a nonempty list. -/
def minLevelOf : List TocEntry → Nat
  | [] => 0
  | e :: es => es.foldl (fun m x => min m x.level) e.level

/-- The `for (const entry of entries)` loop of `assignNumbering`,
threading the counter array. -/
def assignNumberingAux (minLevel : Nat) : List Nat → List TocEntry → List TocEntry
  | _, [] => []
  | counters, e :: es =>
    let depth := e.level - minLevel
    let counters2 := bumpCounters counters depth
    { e with numbering := some (numberingString counters2 depth) }
      :: assignNumberingAux minLevel counters2 es

/-- `assignNumbering`: hierarchical numbering over the minimum level
present, with seven counters initially zero. -/
def assignNumbering (entries : List TocEntry) : List TocEntry :=
  if entries.isEmpty then entries
  else assignNumberingAux (minLevelOf entries) (List.replicate 7 0) entries

/-! ## PDF TOC renderer state (pdf/toc.ts)

`LayoutContext` keeps the live page list (`ctx.pages`), the underlying
document's page list (`ctx.doc`), the page geometry, and the
drawn-element record.  `renderTocContent` only draws glyphs onto the
already-inserted pages — it changes no page counts and no entries — so
the drawing itself is not modelled. -/

/-- Page margins (`ctx.stylesheet.page.margins`). -/
structure Margins where
  top : ℚ
  bottom : ℚ
  left : ℚ
  right : ℚ
deriving DecidableEq, Repr

/-- Page dimensions (`ctx.pageSize`). -/
structure PageSize where
  width : ℚ
  height : ℚ
deriving DecidableEq, Repr

/-- The slice of `LayoutContext` the TOC subsystem touches. -/
structure LayoutContext where
  /-- Pages of the underlying PDF document (`ctx.doc`). -/
  docPages : List PageSize
  /-- The live page array (`ctx.pages`), kept in sync with the doc. -/
  pages : List PageSize
  pageSize : PageSize
  margins : Margins
  drawnElements : List DrawnElement
deriving DecidableEq, Repr

/-- TOC layout constants (pdf/toc.ts lines 21-27). -/
def TOC_TITLE_FONT_SIZE : ℚ := 18

/-- Entry font size; unused by the page-count arithmetic. -/
def TOC_ENTRY_FONT_SIZE : ℚ := 11

/-- Vertical advance per TOC entry. -/
def TOC_ENTRY_LINE_HEIGHT : ℚ := 20

/-- Indent per heading level below the minimum. -/
def TOC_INDENT_PER_LEVEL : ℚ := 20

/-- Gap between the TOC title and the first entry. -/
def TOC_TITLE_MARGIN_BOTTOM : ℚ := 24

/-! ## Page-number matcher (pdf/toc.ts lines 95-121) -/

/-- The filter of source lines 101-103: keep drawn elements whose type
is `heading` or `title`. -/
def isHeadingOrTitle (el : DrawnElement) : Bool :=
  el.type == DrawnKind.heading || el.type == DrawnKind.title

/-- The inner `for (let i = headingIdx; ...)` search: scan the list
(which is `headingElements.drop headingIdx`), carrying the absolute
index `i`, for the first element whose `content` equals `text`. -/
def searchFrom (text : String) : Nat → List DrawnElement → Option (Nat × DrawnElement)
  | _, [] => none
  | i, el :: rest =>
    if el.content = text then some (i, el) else searchFrom text (i + 1) rest

/-- Source line 113: subtract the cover page from the absolute page. -/
def tocDisplayPage (hasCoverPage : Bool) (page : Nat) : Nat :=
  if hasCoverPage then page - 1 else page

/-- The `for (const entry of entries)` loop, threading `headingIdx`:
on a match at index `i` the entry gets the display page and the cursor
becomes `i + 1`; otherwise `entry.pageNumber ??= 1`. -/
def assignAux (headingElements : List DrawnElement) (hasCoverPage : Bool) :
    Nat → List TocEntry → List TocEntry
  | _, [] => []
  | headingIdx, e :: es =>
    match searchFrom e.text headingIdx (headingElements.drop headingIdx) with
    | some (i, el) =>
      { e with pageNumber := some (tocDisplayPage hasCoverPage el.page) }
        :: assignAux headingElements hasCoverPage (i + 1) es
    | none =>
      { e with pageNumber := some (e.pageNumber.getD 1) }
        :: assignAux headingElements hasCoverPage headingIdx es

/-- `assignPageNumbersFromDrawnElements`: match TOC entries against the
heading-or-title drawn elements with a monotone cursor. -/
def assignPageNumbersFromDrawnElements (entries : List TocEntry)
    (drawnElements : List DrawnElement) (hasCoverPage : Bool) : List TocEntry :=
  assignAux (drawnElements.filter isHeadingOrTitle) hasCoverPage 0 entries

/-! ## TOC page allocator (pdf/toc.ts lines 39-89) -/

/-- `contentHeight` of source lines 60-65. -/
def tocContentHeight (ctx : LayoutContext) : ℚ :=
  ctx.pageSize.height - ctx.margins.top - ctx.margins.bottom -
    TOC_TITLE_FONT_SIZE - TOC_TITLE_MARGIN_BOTTOM

/-- `entriesPerPage = Math.floor(contentHeight / TOC_ENTRY_LINE_HEIGHT)`. -/
def entriesPerPageOf (ctx : LayoutContext) : ℤ :=
  Rat.floor (tocContentHeight ctx / TOC_ENTRY_LINE_HEIGHT)

/-- `tocPageCount = Math.max(1, Math.ceil(entries.length / entriesPerPage))`. -/
def tocPageCountOf (ctx : LayoutContext) (entryCount : Nat) : Nat :=
  (max 1 (Rat.ceil ((entryCount : ℚ) / (entriesPerPageOf ctx : ℚ)))).toNat

/-- Insert `n` copies of `page` at index `idx` (the `doc.insertPage`
loop of lines 73-76, and the `ctx.pages.splice` of line 83). -/
def insertPagesAt (pagesList : List PageSize) (idx : Nat) (n : Nat) (page : PageSize) :
    List PageSize :=
  pagesList.take idx ++ List.replicate n page ++ pagesList.drop idx

/-- `insertTocPages`, the single entry point: returns the updated
context together with the number of TOC pages inserted.  Rendering onto
the inserted pages (`renderTocContent`) draws glyphs only and is not
modelled. -/
def insertTocPages (ctx : LayoutContext) (tocConfig : Option TableOfContents)
    (content : Option (List ContentElement)) (hasCoverPage : Bool) :
    LayoutContext × Nat :=
  match resolveTocConfig tocConfig, content with
  | none, _ => (ctx, 0)
  | some _, none => (ctx, 0)
  | some config, some contentList =>
    if contentList.length = 0 then (ctx, 0)
    else
      let entries := extractTocEntries contentList config
      if entries.length = 0 then (ctx, 0)
      else
        let entries := if config.numbered then assignNumbering entries else entries
        let entries := assignPageNumbersFromDrawnElements entries ctx.drawnElements hasCoverPage
        let tocPageCount := tocPageCountOf ctx entries.length
        let insertIndex := if hasCoverPage then 1 else 0
        ({ ctx with
            docPages := insertPagesAt ctx.docPages insertIndex tocPageCount ctx.pageSize
            pages := insertPagesAt ctx.pages insertIndex tocPageCount ctx.pageSize },
          tocPageCount)

/-! ## Spec-side matcher (spec §4.3)

A second definition of the page-number matcher following the spec's
words, to be compared with `assignPageNumbersFromDrawnElements`: "for
each TocEntry in document order, locate the first not-yet-consumed
DrawnElement of kind heading-or-title whose text equals the entry's
text"; consumption is a monotone cursor, so a match consumes the
matched element together with everything before it. -/

/-- First element of the not-yet-consumed list whose text equals
`text`, together with the still-unconsumed elements after it. -/
def splitFirstMatch (text : String) : List DrawnElement → Option (DrawnElement × List DrawnElement)
  | [] => none
  | el :: rest =>
    if el.content = text then some (el, rest)
    else
      match splitFirstMatch text rest with
      | some p => some p
      | none => none

/-- Spec-side matcher: reads the absolute page of the matched element,
subtracts 1 when a cover page is present, and defaults an unmatched
entry's page number to 1; an unmatched entry consumes nothing. -/
def matcherSpec (hasCoverPage : Bool) : List TocEntry → List DrawnElement → List TocEntry
  | [], _ => []
  | e :: es, remaining =>
    match splitFirstMatch e.text remaining with
    | some (m, suffix) =>
      { e with pageNumber := some (tocDisplayPage hasCoverPage m.page) }
        :: matcherSpec hasCoverPage es suffix
    | none =>
      { e with pageNumber := some (e.pageNumber.getD 1) }
        :: matcherSpec hasCoverPage es remaining

/-! ## Spec-side numberer (spec §4.2)

A second definition of `assignNumbering` following the spec's words:
one counter per depth (a function on depths), "increment the counter at
`entry.level − minLevel`; reset all counters at deeper depths to 0;
emit the dot-joined counters from depth 0 through the entry's depth". -/

/-- Increment the counter at `depth` and reset all deeper counters. -/
def specBump (f : Nat → Nat) (depth : Nat) : Nat → Nat :=
  fun i => if i = depth then f depth + 1 else if depth < i then 0 else f i

/-- Dot-joined counters from depth 0 through `depth`. -/
def specNumberingString (f : Nat → Nat) (depth : Nat) : String :=
  String.intercalate "." (((List.range (depth + 1)).map f).map Nat.repr)

/-- Spec-side numbering loop. -/
def assignNumberingSpecAux (minLevel : Nat) : (Nat → Nat) → List TocEntry → List TocEntry
  | _, [] => []
  | f, e :: es =>
    let depth := e.level - minLevel
    let f2 := specBump f depth
    { e with numbering := some (specNumberingString f2 depth) }
      :: assignNumberingSpecAux minLevel f2 es

/-- Spec-side numberer: base depth 0 is the minimum level present; all
counters start at 0. -/
def assignNumberingSpec (entries : List TocEntry) : List TocEntry :=
  if entries.isEmpty then entries
  else assignNumberingSpecAux (minLevelOf entries) (fun _ => 0) entries

/-! ## Page-offset adjuster (pdf/toc.ts lines 227-235) -/

/-- `adjustPageNumberOffset`: the physical index of content page 1 and
the number of content pages, after TOC insertion. -/
def adjustPageNumberOffset (tocPageCount : ℤ) (hasCoverPage : Bool) (totalPages : ℤ) :
    ℤ × ℤ :=
  let startPage := if hasCoverPage then 1 + tocPageCount else tocPageCount
  let contentPageCount := totalPages - startPage
  (startPage, contentPageCount)

/-- Proof-side invariant: a character of a finished anchor id is a
non-uppercase word character or a hyphen. -/
def slugChar (c : Char) : Prop :=
  (jsIsWordChar c = true ∧ ¬(65 ≤ c.toNat ∧ c.toNat ≤ 90)) ∨ c = '-'

/-! ## Helper lemmas -/

theorem bumpCounters_length (l : List Nat) (d : Nat) : (bumpCounters l d).length = l.length := by
  induction l generalizing d with
  | nil => rfl
  | cons c cs ih =>
    cases d with
    | zero => simp [bumpCounters]
    | succ d => simp [bumpCounters, ih]

theorem assignNumberingAux_length (minLevel : Nat) (counters : List Nat) (es : List TocEntry) :
    (assignNumberingAux minLevel counters es).length = es.length := by
  induction es generalizing counters with
  | nil => rfl
  | cons e es ih => simp [assignNumberingAux, ih]

theorem assignNumbering_length (entries : List TocEntry) :
    (assignNumbering entries).length = entries.length := by
  unfold assignNumbering
  split
  · rfl
  · exact assignNumberingAux_length _ _ _

theorem assignAux_length (hs : List DrawnElement) (cover : Bool) (idx : Nat)
    (es : List TocEntry) : (assignAux hs cover idx es).length = es.length := by
  induction es generalizing idx with
  | nil => rfl
  | cons e es ih =>
    rw [assignAux]
    cases hm : searchFrom e.text idx (hs.drop idx) with
    | none => simp [ih]
    | some p => simp [ih]

theorem assignPageNumbers_length (entries : List TocEntry) (hs : List DrawnElement)
    (cover : Bool) :
    (assignPageNumbersFromDrawnElements entries hs cover).length = entries.length := by
  unfold assignPageNumbersFromDrawnElements
  exact assignAux_length _ _ _ _

theorem extractTocEntriesAux_eq_nil (config : ResolvedTocConfig) (cl : List ContentElement)
    (h : ∀ l t, ContentElement.heading l t ∈ cl → l < config.minLevel ∨ config.maxLevel < l) :
    extractTocEntriesAux config cl = [] := by
  induction cl with
  | nil => rfl
  | cons el rest ih =>
    have htail : ∀ l t, ContentElement.heading l t ∈ rest →
        l < config.minLevel ∨ config.maxLevel < l :=
      fun l t hm => h l t (List.mem_cons_of_mem _ hm)
    cases el with
    | heading l t =>
      have hh := h l t (List.mem_cons_self _ _)
      rw [extractTocEntriesAux, if_pos hh]
      exact ih htail
    | paragraph s => exact ih htail
    | table => exact ih htail
    | field => exact ih htail
    | admonition => exact ih htail
    | rule => exact ih htail
    | spacer => exact ih htail

theorem insertPagesAt_length (l : List PageSize) (idx n : Nat) (p : PageSize) :
    (insertPagesAt l idx n p).length = l.length + n := by
  simp [insertPagesAt]
  omega

/-! ## Claims -/

/-- C2: `adjustPageNumberOffset` is a pure function returning
`startPage = tocPageCount + (1 if hasCoverPage else 0)` and
`contentPageCount = totalPages − startPage`; in particular
`adjustPageNumberOffset 2 true 10 = (3, 7)`. -/
theorem C2_adjustPageNumberOffset_formula :
    (∀ (tocPageCount : ℤ) (hasCoverPage : Bool) (totalPages : ℤ),
      adjustPageNumberOffset tocPageCount hasCoverPage totalPages =
        (tocPageCount + (if hasCoverPage then 1 else 0),
         totalPages - (tocPageCount + (if hasCoverPage then 1 else 0)))) ∧
    adjustPageNumberOffset 2 true 10 = (3, 7) := by
  constructor
  · intro t c p
    cases c <;> simp [adjustPageNumberOffset, Int.add_comm]
  · decide

/-- C8: `extractTocEntries` is a single forward pass returning exactly
the heading elements whose level lies within `[minLevel, maxLevel]`, in
document order; for headings at levels 1,2,3,4,1 and range [2,3] it
yields exactly the level-2 and level-3 entries. -/
theorem C8_extractTocEntries_filter :
    (∀ (content : List ContentElement) (config : ResolvedTocConfig),
      extractTocEntries content config =
        content.filterMap (fun el =>
          match el with
          | ContentElement.heading level text =>
            if config.minLevel ≤ level ∧ level ≤ config.maxLevel then
              some { text := text, level := level, anchorId := generateAnchorId text }
            else none
          | _ => none)) ∧
    extractTocEntries
        [ContentElement.heading 1 "one", ContentElement.heading 2 "two",
         ContentElement.heading 3 "three", ContentElement.heading 4 "four",
         ContentElement.heading 1 "one bis"]
        { enabled := true, title := "Table of Contents", minLevel := 2, maxLevel := 3,
          numbered := false, showPageNumbers := true } =
      [{ text := "two", level := 2, anchorId := "two" },
       { text := "three", level := 3, anchorId := "three" }] := by
  constructor
  · intro content config
    unfold extractTocEntries
    induction content with
    | nil => rfl
    | cons el rest ih =>
      cases el with
      | heading l t =>
        by_cases h : l < config.minLevel ∨ config.maxLevel < l
        · rw [extractTocEntriesAux, if_pos h, List.filterMap_cons]
          have : ¬(config.minLevel ≤ l ∧ l ≤ config.maxLevel) := by omega
          simp only [if_neg this, ih]
        · rw [extractTocEntriesAux, if_neg h, List.filterMap_cons]
          have : config.minLevel ≤ l ∧ l ≤ config.maxLevel := by omega
          simp only [if_pos this, ih]
      | paragraph s => simpa [extractTocEntriesAux, List.filterMap_cons] using ih
      | table => simpa [extractTocEntriesAux, List.filterMap_cons] using ih
      | field => simpa [extractTocEntriesAux, List.filterMap_cons] using ih
      | admonition => simpa [extractTocEntriesAux, List.filterMap_cons] using ih
      | rule => simpa [extractTocEntriesAux, List.filterMap_cons] using ih
      | spacer => simpa [extractTocEntriesAux, List.filterMap_cons] using ih
  · rfl

/-- C4: `insertTocPages` returns 0 and leaves the page lists and page
count unchanged when the TOC configuration is absent or disabled, the
content is absent or empty, or no heading lies in the configured level
range. -/
theorem C4_insertTocPages_noop
    (ctx : LayoutContext) (tocConfig : Option TableOfContents)
    (content : Option (List ContentElement)) (cover : Bool) :
    (resolveTocConfig tocConfig = none →
      insertTocPages ctx tocConfig content cover = (ctx, 0)) ∧
    (content = none ∨ content = some [] →
      insertTocPages ctx tocConfig content cover = (ctx, 0)) ∧
    (∀ config cl, resolveTocConfig tocConfig = some config → content = some cl →
      (∀ l t, ContentElement.heading l t ∈ cl →
        l < config.minLevel ∨ config.maxLevel < l) →
      insertTocPages ctx tocConfig content cover = (ctx, 0)) := by
  refine ⟨?_, ?_, ?_⟩
  · intro h
    unfold insertTocPages
    rw [h]
  · intro h
    unfold insertTocPages
    cases hr : resolveTocConfig tocConfig with
    | none => rfl
    | some config =>
      rcases h with h | h
      · rw [h]
      · rw [h]; rfl
  · intro config cl hr hc hlv
    have he : extractTocEntries cl config = [] :=
      extractTocEntriesAux_eq_nil config cl hlv
    simp [insertTocPages, hr, hc, he, ite_self]

/-! ## Matcher lemmas -/

theorem splitFirstMatch_cons (text : String) (a : DrawnElement) (l : List DrawnElement) :
    splitFirstMatch text (a :: l) =
      if a.content = text then some (a, l) else splitFirstMatch text l := by
  by_cases h : a.content = text
  · simp [splitFirstMatch, h]
  · simp only [splitFirstMatch, if_neg h]
    cases hs : splitFirstMatch text l <;> simp

theorem searchFrom_none_iff (text : String) (l : List DrawnElement) :
    ∀ idx : Nat, (searchFrom text idx l = none ↔ splitFirstMatch text l = none) := by
  induction l with
  | nil => intro idx; simp [searchFrom, splitFirstMatch]
  | cons a l ih =>
    intro idx
    by_cases h : a.content = text
    · simp [searchFrom, splitFirstMatch_cons, h]
    · rw [searchFrom, if_neg h, splitFirstMatch_cons, if_neg h]
      exact ih (idx + 1)

theorem searchFrom_some (text : String) (l : List DrawnElement) :
    ∀ (idx i : Nat) (el : DrawnElement), searchFrom text idx l = some (i, el) →
      idx ≤ i ∧ splitFirstMatch text l = some (el, l.drop (i + 1 - idx)) := by
  induction l with
  | nil => intro idx i el h; simp [searchFrom] at h
  | cons a l ih =>
    intro idx i el h
    rw [searchFrom] at h
    by_cases ha : a.content = text
    · rw [if_pos ha] at h
      simp only [Option.some.injEq, Prod.mk.injEq] at h
      obtain ⟨rfl, rfl⟩ := h
      constructor
      · exact Nat.le_refl _
      · rw [splitFirstMatch_cons, if_pos ha]
        have : idx + 1 - idx = 1 := by omega
        rw [this]
        rfl
    · rw [if_neg ha] at h
      obtain ⟨hle, hsp⟩ := ih (idx + 1) i el h
      refine ⟨by omega, ?_⟩
      rw [splitFirstMatch_cons, if_neg ha, hsp]
      have h1 : i + 1 - idx = (i + 1 - (idx + 1)) + 1 := by omega
      rw [h1, List.drop_succ_cons]

theorem assignAux_eq_matcherSpec (hs : List DrawnElement) (cover : Bool) :
    ∀ (es : List TocEntry) (idx : Nat),
      assignAux hs cover idx es = matcherSpec cover es (hs.drop idx) := by
  intro es
  induction es with
  | nil => intro idx; rfl
  | cons e es ih =>
    intro idx
    rw [assignAux, matcherSpec]
    cases hm : searchFrom e.text idx (hs.drop idx) with
    | none =>
      simp only [hm, (searchFrom_none_iff e.text (hs.drop idx) idx).mp hm]
      rw [ih idx]
    | some p =>
      obtain ⟨i, el⟩ := p
      obtain ⟨hle, hsp⟩ := searchFrom_some e.text (hs.drop idx) idx i el hm
      have hd : (hs.drop idx).drop (i + 1 - idx) = hs.drop (i + 1) := by
        rw [List.drop_drop]
        congr 1
        omega
      simp only [hm, hsp, hd]
      rw [ih (i + 1)]

/-- C1: the page-number matcher assigns each entry the absolute page of
the first not-yet-consumed heading-or-title drawn element with equal
text, minus 1 when a cover page is present, with a cursor that only
advances (refinement of the spec-side `matcherSpec`); duplicate heading
texts resolve to successive occurrences. -/
theorem C1_matcher_refines_spec :
    (∀ (entries : List TocEntry) (drawnElements : List DrawnElement) (cover : Bool),
      assignPageNumbersFromDrawnElements entries drawnElements cover =
        matcherSpec cover entries (drawnElements.filter isHeadingOrTitle)) ∧
    (assignPageNumbersFromDrawnElements
        [{ text := "A", level := 1, anchorId := "a" },
         { text := "A", level := 1, anchorId := "a" }]
        [⟨DrawnKind.heading, "A", 2⟩, ⟨DrawnKind.paragraph, "A", 3⟩,
         ⟨DrawnKind.heading, "A", 5⟩]
        false).map TocEntry.pageNumber = [some 2, some 5] ∧
    (assignPageNumbersFromDrawnElements [{ text := "A", level := 1, anchorId := "a" }]
        [⟨DrawnKind.heading, "A", 5⟩] true).map TocEntry.pageNumber = [some 4] := by
  refine ⟨fun entries hs cover => ?_, rfl, rfl⟩
  unfold assignPageNumbersFromDrawnElements
  simpa using assignAux_eq_matcherSpec (hs.filter isHeadingOrTitle) cover entries 0

/-! ## Fallback lemmas (claim C7) -/

theorem searchFrom_none_of_absent (text : String) (l : List DrawnElement)
    (h : ∀ el ∈ l, el.content ≠ text) : ∀ idx, searchFrom text idx l = none := by
  induction l with
  | nil => intro idx; rfl
  | cons a l ih =>
    intro idx
    rw [searchFrom, if_neg (h a (List.mem_cons_self _ _))]
    exact ih (fun el hm => h el (List.mem_cons_of_mem _ hm)) (idx + 1)

theorem assignAux_pageNumber_isSome (hs : List DrawnElement) (cover : Bool) :
    ∀ (es : List TocEntry) (idx : Nat),
      ∀ e' ∈ assignAux hs cover idx es, e'.pageNumber.isSome := by
  intro es
  induction es with
  | nil => intro idx e' h; simp [assignAux] at h
  | cons e es ih =>
    intro idx e' h
    rw [assignAux] at h
    cases hm : searchFrom e.text idx (hs.drop idx) with
    | none =>
      rw [hm] at h
      rcases List.mem_cons.mp h with h | h
      · subst h; rfl
      · exact ih idx e' h
    | some p =>
      obtain ⟨i, el⟩ := p
      rw [hm] at h
      rcases List.mem_cons.mp h with h | h
      · subst h; rfl
      · exact ih (i + 1) e' h

theorem assignAux_unmatched (hs : List DrawnElement) (cover : Bool) :
    ∀ (es : List TocEntry) (idx i : Nat) (e : TocEntry),
      es.get? i = some e → e.pageNumber = none →
      (∀ el ∈ hs, el.content ≠ e.text) →
      ∃ e', (assignAux hs cover idx es).get? i = some e' ∧ e'.pageNumber = some 1 := by
  intro es
  induction es with
  | nil => intro idx i e h; simp at h
  | cons e0 es ih =>
    intro idx i e hget hnone habs
    cases i with
    | zero =>
      have he : e0 = e := by simpa using hget
      have hdrop : ∀ el ∈ hs.drop idx, el.content ≠ e0.text := by
        intro el hm
        rw [he]
        exact habs el (List.mem_of_mem_drop hm)
      rw [assignAux, searchFrom_none_of_absent e0.text (hs.drop idx) hdrop idx]
      refine ⟨_, rfl, ?_⟩
      simp [he, hnone]
    | succ i =>
      have hget' : es.get? i = some e := by simpa using hget
      rw [assignAux]
      cases hm : searchFrom e0.text idx (hs.drop idx) with
      | none =>
        obtain ⟨e', h1, h2⟩ := ih idx i e hget' hnone habs
        exact ⟨e', by simpa using h1, h2⟩
      | some p =>
        obtain ⟨j, el⟩ := p
        obtain ⟨e', h1, h2⟩ := ih (j + 1) i e hget' hnone habs
        exact ⟨e', by simpa using h1, h2⟩

/-- C7: every TOC entry leaves the matcher with an assigned page number
(none is left unset), and an entry whose text matches no heading-or-title
drawn element gets the default page number 1. -/
theorem C7_unmatched_defaults_to_one
    (entries : List TocEntry) (drawnElements : List DrawnElement) (cover : Bool) :
    (∀ e' ∈ assignPageNumbersFromDrawnElements entries drawnElements cover,
      e'.pageNumber.isSome) ∧
    (∀ i e, entries.get? i = some e → e.pageNumber = none →
      (∀ el ∈ drawnElements, isHeadingOrTitle el = true → el.content ≠ e.text) →
      ∃ e', (assignPageNumbersFromDrawnElements entries drawnElements cover).get? i = some e' ∧
        e'.pageNumber = some 1) := by
  constructor
  · exact assignAux_pageNumber_isSome _ cover entries 0
  · intro i e hget hnone habs
    refine assignAux_unmatched _ cover entries 0 i e hget hnone ?_
    intro el hm
    exact habs el (List.mem_filter.mp hm).1 (List.mem_filter.mp hm).2

/-! ## Page-number bounds (claim C6) -/

theorem searchFrom_mem (text : String) (l : List DrawnElement) :
    ∀ (idx i : Nat) (el : DrawnElement), searchFrom text idx l = some (i, el) → el ∈ l := by
  induction l with
  | nil => intro idx i el h; simp [searchFrom] at h
  | cons a l ih =>
    intro idx i el h
    rw [searchFrom] at h
    by_cases ha : a.content = text
    · rw [if_pos ha] at h
      simp only [Option.some.injEq, Prod.mk.injEq] at h
      obtain ⟨-, rfl⟩ := h
      exact List.mem_cons_self _ _
    · rw [if_neg ha] at h
      exact List.mem_cons_of_mem _ (ih (idx + 1) i el h)

theorem assignAux_bounds (hs : List DrawnElement) (cover : Bool)
    (totalPages tocPages : Nat)
    (hpages : ∀ el ∈ hs, (if cover then 2 else 1) ≤ el.page ∧ el.page ≤ totalPages)
    (htoc : 1 ≤ tocPages) :
    ∀ (es : List TocEntry) (idx : Nat), (∀ e ∈ es, e.pageNumber = none) →
      ∀ e' ∈ assignAux hs cover idx es,
        ∃ p, e'.pageNumber = some p ∧ 1 ≤ p ∧ p ≤ totalPages + tocPages := by
  intro es
  induction es with
  | nil => intro idx _ e' h; simp [assignAux] at h
  | cons e es ih =>
    intro idx hnone e' h
    rw [assignAux] at h
    cases hm : searchFrom e.text idx (hs.drop idx) with
    | none =>
      rw [hm] at h
      rcases List.mem_cons.mp h with rfl | h
      · refine ⟨1, ?_, Nat.le_refl 1, by omega⟩
        simp [hnone e (List.mem_cons_self e es)]
      · exact ih idx (fun x hx => hnone x (List.mem_cons_of_mem _ hx)) e' h
    | some p =>
      obtain ⟨i, el⟩ := p
      rw [hm] at h
      rcases List.mem_cons.mp h with rfl | h
      · have hel : el ∈ hs :=
          List.mem_of_mem_drop (searchFrom_mem e.text (hs.drop idx) idx i el hm)
        obtain ⟨h1, h2⟩ := hpages el hel
        refine ⟨tocDisplayPage cover el.page, rfl, ?_, ?_⟩ <;>
          (unfold tocDisplayPage; cases cover <;> simp at h1 ⊢ <;> omega)
      · exact ih (i + 1) (fun x hx => hnone x (List.mem_cons_of_mem _ hx)) e' h

/-- C6 counterexample: against the claim, an assigned page number can be
0 (not positive): a `title` drawn element on page 1 combined with a
cover page gives `1 - 1 = 0`. -/
theorem C6_counterexample_page_zero :
    (assignPageNumbersFromDrawnElements
        [{ text := "T", level := 1, anchorId := "t" }]
        [⟨DrawnKind.title, "T", 1⟩] true).map TocEntry.pageNumber = [some 0] := rfl

/-- C6 (amended): when every heading-or-title drawn element lies on an
absolute page between (2 when a cover page is present, else 1) and the
pre-insertion page total, and at least one TOC page is inserted, every
page number the matcher assigns to fresh entries is between 1 and the
post-insertion page total. -/
theorem C6_pageNumber_bounds
    (entries : List TocEntry) (drawnElements : List DrawnElement) (cover : Bool)
    (totalPages tocPages : Nat)
    (hentries : ∀ e ∈ entries, e.pageNumber = none)
    (hpages : ∀ el ∈ drawnElements, isHeadingOrTitle el = true →
      (if cover then 2 else 1) ≤ el.page ∧ el.page ≤ totalPages)
    (htoc : 1 ≤ tocPages) :
    ∀ e' ∈ assignPageNumbersFromDrawnElements entries drawnElements cover,
      ∃ p, e'.pageNumber = some p ∧ 1 ≤ p ∧ p ≤ totalPages + tocPages := by
  refine assignAux_bounds _ cover totalPages tocPages ?_ htoc entries 0 hentries
  intro el hm
  exact hpages el (List.mem_filter.mp hm).1 (List.mem_filter.mp hm).2

/-- Witness for the amended C6, at one entry matched on page 2 of a
2-page document with a cover page and one inserted TOC page. -/
theorem C6_pageNumber_bounds_witness :
    ∃ p, TocEntry.pageNumber
        { text := "A", level := 1, anchorId := "a", numbering := none,
          pageNumber := some 1 } = some p ∧ 1 ≤ p ∧ p ≤ 3 :=
  C6_pageNumber_bounds
    [{ text := "A", level := 1, anchorId := "a" }]
    [⟨DrawnKind.heading, "A", 2⟩] true 2 1
    (by decide) (by decide) (by decide)
    { text := "A", level := 1, anchorId := "a", numbering := none, pageNumber := some 1 }
    (by decide)

/-! ## Numbering lemmas (claims C5 and C10) -/

theorem getD_map_zero (cs : List Nat) : ∀ i : Nat, (cs.map (fun _ => 0)).getD i 0 = 0 := by
  induction cs with
  | nil => intro i; simp
  | cons c cs ih =>
    intro i
    cases i with
    | zero => rfl
    | succ i => simpa using ih i

theorem bumpCounters_getD (l : List Nat) :
    ∀ (d i : Nat), i < l.length →
      (bumpCounters l d).getD i 0 =
        (if i = d then l.getD i 0 + 1 else if d < i then 0 else l.getD i 0) := by
  induction l with
  | nil => intro d i h; simp at h
  | cons c cs ih =>
    intro d i h
    cases d with
    | zero =>
      cases i with
      | zero => simp [bumpCounters]
      | succ i =>
        simp only [bumpCounters, List.getD_cons_succ]
        rw [getD_map_zero]
        simp
    | succ d =>
      cases i with
      | zero => simp [bumpCounters]
      | succ i =>
        simp only [bumpCounters, List.getD_cons_succ]
        rw [ih d i (by simpa using h)]
        by_cases h1 : i = d
        · simp [h1]
        · rw [if_neg h1, if_neg (by omega : ¬i + 1 = d + 1)]
          by_cases h2 : d < i
          · rw [if_pos h2, if_pos (by omega)]
          · rw [if_neg h2, if_neg (by omega)]

theorem take_eq_range_map :
    ∀ (l : List Nat) (k : Nat) (f : Nat → Nat), k ≤ l.length →
      (∀ i, i < k → l.getD i 0 = f i) → l.take k = (List.range k).map f := by
  intro l
  induction l with
  | nil =>
    intro k f hk _
    have : k = 0 := by simpa using hk
    subst this
    rfl
  | cons a l ih =>
    intro k f hk hf
    cases k with
    | zero => rfl
    | succ k =>
      rw [List.take_succ_cons, List.range_succ_eq_map, List.map_cons, List.map_map]
      have h0 : a = f 0 := by simpa using hf 0 (Nat.succ_pos k)
      rw [← h0]
      congr 1
      exact ih k (fun i => f (i + 1)) (by simp only [List.length_cons] at hk; omega)
        (fun i hi => by simpa using hf (i + 1) (by omega))

theorem bump_getD_eq_specBump (l : List Nat) (f : Nat → Nat) (d : Nat)
    (hlen : l.length = 7) (hinv : ∀ i, i < 7 → l.getD i 0 = f i) (hd : d ≤ 5) :
    ∀ i, i < 7 → (bumpCounters l d).getD i 0 = specBump f d i := by
  intro i hi
  rw [bumpCounters_getD l d i (by omega), specBump]
  by_cases h1 : i = d
  · subst h1
    rw [if_pos rfl, if_pos rfl, hinv i hi]
  · rw [if_neg h1, if_neg h1]
    by_cases h2 : d < i
    · rw [if_pos h2, if_pos h2]
    · rw [if_neg h2, if_neg h2]
      exact hinv i hi

theorem assignNumberingAux_eq_spec (minLevel : Nat) :
    ∀ (es : List TocEntry) (l : List Nat) (f : Nat → Nat),
      l.length = 7 → (∀ i, i < 7 → l.getD i 0 = f i) →
      (∀ e ∈ es, e.level - minLevel ≤ 5) →
      assignNumberingAux minLevel l es = assignNumberingSpecAux minLevel f es := by
  intro es
  induction es with
  | nil => intro l f _ _ _; rfl
  | cons e es ih =>
    intro l f hlen hinv hlv
    have hd : e.level - minLevel ≤ 5 := hlv e (List.mem_cons_self _ _)
    have hblen : (bumpCounters l (e.level - minLevel)).length = 7 := by
      rw [bumpCounters_length, hlen]
    have hbinv := bump_getD_eq_specBump l f (e.level - minLevel) hlen hinv hd
    rw [assignNumberingAux, assignNumberingSpecAux]
    congr 1
    · congr 1
      rw [numberingString, specNumberingString, List.map_map]
      rw [take_eq_range_map (bumpCounters l (e.level - minLevel)) (e.level - minLevel + 1)
        (specBump f (e.level - minLevel)) (by omega) (fun i hi => hbinv i (by omega))]
      rw [List.map_map]
    · exact ih (bumpCounters l (e.level - minLevel)) (specBump f (e.level - minLevel))
        hblen hbinv (fun x hx => hlv x (List.mem_cons_of_mem _ hx))

theorem minLevelOf_ge_one (entries : List TocEntry) (hne : entries ≠ [])
    (hlv : ∀ e ∈ entries, 1 ≤ e.level) : 1 ≤ minLevelOf entries := by
  cases entries with
  | nil => exact absurd rfl hne
  | cons e es =>
    rw [minLevelOf]
    have h0 : 1 ≤ e.level := hlv e (List.mem_cons_self _ _)
    have : ∀ (l : List TocEntry) (acc : Nat), 1 ≤ acc → (∀ x ∈ l, 1 ≤ x.level) →
        1 ≤ l.foldl (fun m x => min m x.level) acc := by
      intro l
      induction l with
      | nil => intro acc hacc _; exact hacc
      | cons x l ihl =>
        intro acc hacc hx
        rw [List.foldl_cons]
        exact ihl (min acc x.level)
          (le_min hacc (hx x (List.mem_cons_self _ _)))
          (fun y hy => hx y (List.mem_cons_of_mem _ hy))
    exact this es e.level h0 (fun y hy => hlv y (List.mem_cons_of_mem _ hy))

/-- C5: `assignNumbering` implements the spec's numbering algorithm —
increment the counter at the entry's depth below the minimum level
present, reset all deeper counters, emit the dot-joined counters from
depth 0 through the entry's depth — and levels [1,2,3,1,2] receive
numberings ["1", "1.1", "1.1.1", "2", "2.1"] (not "2.2" for the last). -/
theorem C5_assignNumbering_matches_spec :
    (∀ entries : List TocEntry, (∀ e ∈ entries, 1 ≤ e.level ∧ e.level ≤ 6) →
      assignNumbering entries = assignNumberingSpec entries) ∧
    (assignNumbering
        [{ text := "A", level := 1, anchorId := "a" },
         { text := "A1", level := 2, anchorId := "a1" },
         { text := "A1a", level := 3, anchorId := "a1a" },
         { text := "B", level := 1, anchorId := "b" },
         { text := "B1", level := 2, anchorId := "b1" }]).map TocEntry.numbering =
      [some "1", some "1.1", some "1.1.1", some "2", some "2.1"] := by
  constructor
  · intro entries hlv
    unfold assignNumbering assignNumberingSpec
    by_cases hne : entries.isEmpty
    · rw [if_pos hne, if_pos hne]
    · rw [if_neg hne, if_neg hne]
      have hne' : entries ≠ [] := by
        cases entries
        · simp at hne
        · simp
      have hmin : 1 ≤ minLevelOf entries :=
        minLevelOf_ge_one entries hne' (fun e he => (hlv e he).1)
      refine assignNumberingAux_eq_spec (minLevelOf entries) entries
        (List.replicate 7 0) (fun _ => 0) (by simp) ?_ ?_
      · intro i hi
        interval_cases i <;> rfl
      · intro e he
        have := (hlv e he).2
        omega
  · rfl

theorem assignNumberingAux_parts (minLevel : Nat) :
    ∀ (es : List TocEntry) (l : List Nat), l.length = 7 →
      (∀ e ∈ es, e.level - minLevel ≤ 5) →
      ∀ i e', (assignNumberingAux minLevel l es).get? i = some e' →
        ∃ e parts, es.get? i = some e ∧
          List.length (parts : List Nat) = e.level - minLevel + 1 ∧
          e'.numbering = some (String.intercalate "." (parts.map Nat.repr)) := by
  intro es
  induction es with
  | nil => intro l _ _ i e' h; simp [assignNumberingAux] at h
  | cons e es ih =>
    intro l hlen hlv i e' h
    rw [assignNumberingAux] at h
    cases i with
    | zero =>
      simp only [List.get?_cons_zero, Option.some.injEq] at h
      refine ⟨e, (bumpCounters l (e.level - minLevel)).take (e.level - minLevel + 1),
        rfl, ?_, ?_⟩
      · rw [List.length_take, bumpCounters_length, hlen]
        have := hlv e (List.mem_cons_self _ _)
        omega
      · rw [← h]
        rfl
    | succ i =>
      simp only [List.get?_cons_succ] at h ⊢
      exact ih (bumpCounters l (e.level - minLevel))
        (by rw [bumpCounters_length, hlen])
        (fun x hx => hlv x (List.mem_cons_of_mem _ hx)) i e' h

/-- C10: each numbering string has exactly
`entry.level − (minimum level present) + 1` dot-separated components,
and components can be zero: entries at levels [2, 1] receive
numberings ["0.1", "1"]. -/
theorem C10_numbering_components :
    (∀ entries : List TocEntry, entries ≠ [] →
      (∀ e ∈ entries, 1 ≤ e.level ∧ e.level ≤ 6) →
      ∀ i e', (assignNumbering entries).get? i = some e' →
        ∃ e parts, entries.get? i = some e ∧
          List.length (parts : List Nat) = e.level - minLevelOf entries + 1 ∧
          e'.numbering = some (String.intercalate "." (parts.map Nat.repr))) ∧
    (assignNumbering
        [{ text := "deep", level := 2, anchorId := "deep" },
         { text := "top", level := 1, anchorId := "top" }]).map TocEntry.numbering =
      [some "0.1", some "1"] := by
  constructor
  · intro entries hne hlv i e' h
    rw [assignNumbering, if_neg (by simpa using hne)] at h
    have hmin : 1 ≤ minLevelOf entries :=
      minLevelOf_ge_one entries hne (fun e he => (hlv e he).1)
    exact assignNumberingAux_parts (minLevelOf entries) entries (List.replicate 7 0)
      (by simp) (fun e he => by have := (hlv e he).2; omega) i e' h
  · rfl

/-! ## TOC page-count arithmetic (claim C3) -/

theorem neg_ediv_of_not_dvd {a b : ℤ} (hb : 0 < b) (h : ¬ b ∣ a) :
    (-a) / b = -(a / b) - 1 := by
  have hmod0 : a % b ≠ 0 := fun h0 => h (Int.dvd_of_emod_eq_zero h0)
  have hmodnn : 0 ≤ a % b := Int.emod_nonneg a (by omega)
  have hmodlt : a % b < b := Int.emod_lt_of_pos a hb
  have hadd : b * (a / b) + a % b = a := Int.ediv_add_emod a b
  have key : (-a) / b = -(a / b) - 1 ∧ (-a) % b = b - a % b := by
    rw [Int.ediv_emod_unique hb]
    refine ⟨by linear_combination -hadd, by omega, by omega⟩
  exact key.1

theorem rat_floor_eq_floor (q : ℚ) : Rat.floor q = ⌊q⌋ := by
  rw [Rat.floor_def, Rat.floor_def']

theorem rat_ceil_eq_ceil (q : ℚ) : Rat.ceil q = ⌈q⌉ := by
  have h1 : (⌈q⌉ : ℤ) = -⌊-q⌋ := by rw [Int.floor_neg]; ring
  rw [h1, Rat.floor_def, Rat.num_neg_eq_neg_num, Rat.den_neg_eq_den]
  rw [Rat.ceil]
  by_cases hd : q.den = 1
  · rw [if_pos hd, hd]
    simp
  · rw [if_neg hd]
    have hdpos : 0 < (q.den : ℤ) := by exact_mod_cast q.den_pos
    have hnd : ¬ (q.den : ℤ) ∣ q.num := by
      intro hdvd
      have h2 : q.den ∣ q.num.natAbs := Int.natCast_dvd.mp hdvd
      have h3 : q.den ∣ Nat.gcd q.num.natAbs q.den := Nat.dvd_gcd h2 dvd_rfl
      have h4 : Nat.gcd q.num.natAbs q.den = 1 := q.reduced
      rw [h4] at h3
      exact hd (Nat.dvd_one.mp h3)
    rw [neg_ediv_of_not_dvd hdpos hnd]
    ring

theorem toc_page_count_eq (n e : Nat) (he : 0 < e) :
    (max 1 (Rat.ceil ((n : ℚ) / (((e : ℤ) : ℚ))))).toNat = max 1 ((n + e - 1) / e) := by
  rw [rat_ceil_eq_ceil]
  have hc : (⌈(n : ℚ) / ((e : ℤ) : ℚ)⌉ : ℤ) = -((-(n : ℤ)) / (e : ℤ)) := by
    have h2 : ((n : ℚ) / ((e : ℤ) : ℚ)) = (((n : ℤ) : ℚ)) / ((e : ℕ) : ℚ) := by
      push_cast
      ring
    rw [h2]
    rw [show (⌈((n : ℤ) : ℚ) / ((e : ℕ) : ℚ)⌉ : ℤ) = -⌊-(((n : ℤ) : ℚ) / ((e : ℕ) : ℚ))⌋ by
      rw [Int.floor_neg]; ring]
    rw [show -(((n : ℤ) : ℚ) / ((e : ℕ) : ℚ)) = (((-(n : ℤ)) : ℤ) : ℚ) / ((e : ℕ) : ℚ) by
      push_cast; ring]
    rw [Rat.floor_intCast_div_natCast]
  rw [hc]
  by_cases hn : n = 0
  · subst hn
    simp only [Nat.cast_zero, neg_zero, Int.zero_ediv]
    rw [Nat.div_eq_of_lt (by omega)]
    decide
  · have hk := Nat.div_add_mod (n - 1) e
    have hm : (n - 1) % e < e := Nat.mod_lt _ he
    have hcast : (n : ℤ) - 1 = (e : ℤ) * ((n - 1) / e : ℕ) + ((n - 1) % e : ℕ) := by
      have h1 : ((n - 1 : ℕ) : ℤ) = (n : ℤ) - 1 := by omega
      rw [← h1]
      exact_mod_cast hk.symm
    have hediv : (-(n : ℤ)) / (e : ℤ) = -(((n - 1) / e : ℕ) + 1) := by
      have huniq := (Int.ediv_emod_unique (a := -(n : ℤ)) (b := (e : ℤ))
        (r := (e : ℤ) - ((n - 1) % e : ℕ) - 1) (q := -(((n - 1) / e : ℕ) + 1))
        (by exact_mod_cast he)).mpr ⟨by linear_combination hcast, by omega, by omega⟩
      exact huniq.1
    rw [hediv]
    have hrhs : (n + e - 1) / e = (n - 1) / e + 1 := by
      have h3 : n + e - 1 = (n - 1) + e := by omega
      rw [h3, Nat.add_div_right _ he]
    rw [hrhs]
    omega

theorem entries_length_after (config : ResolvedTocConfig) (entries : List TocEntry)
    (hs : List DrawnElement) (cover : Bool) :
    (assignPageNumbersFromDrawnElements
      (if config.numbered = true then assignNumbering entries else entries) hs cover).length =
      entries.length := by
  rw [assignPageNumbers_length]
  cases hnum : config.numbered <;> simp [assignNumbering_length]

theorem insertTocPages_spec (ctx : LayoutContext) (tocConfig : Option TableOfContents)
    (contentList : List ContentElement) (cover : Bool) (config : ResolvedTocConfig)
    (hr : resolveTocConfig tocConfig = some config)
    (hne : (extractTocEntries contentList config).length ≠ 0) :
    insertTocPages ctx tocConfig (some contentList) cover =
      ({ ctx with
          docPages := insertPagesAt ctx.docPages (if cover then 1 else 0)
            (tocPageCountOf ctx (extractTocEntries contentList config).length) ctx.pageSize
          pages := insertPagesAt ctx.pages (if cover then 1 else 0)
            (tocPageCountOf ctx (extractTocEntries contentList config).length) ctx.pageSize },
        tocPageCountOf ctx (extractTocEntries contentList config).length) := by
  have hcl : ¬ contentList.length = 0 := by
    intro h0
    rw [List.length_eq_zero.mp h0] at hne
    exact hne rfl
  simp only [insertTocPages, hr]
  rw [if_neg hcl, if_neg hne, entries_length_after]

/-- C3: for content producing at least one TOC entry (and a positive
entries-per-page capacity), the number of TOC pages `insertTocPages`
returns and inserts into both page lists is
`max 1 (ceil (entryCount / entriesPerPage))`, with `entriesPerPage`
the floor of the content height over the entry line height. -/
theorem C3_inserted_page_count (ctx : LayoutContext) (tocConfig : Option TableOfContents)
    (contentList : List ContentElement) (cover : Bool) (config : ResolvedTocConfig)
    (hr : resolveTocConfig tocConfig = some config)
    (hne : extractTocEntries contentList config ≠ [])
    (hpos : 0 < entriesPerPageOf ctx) :
    (insertTocPages ctx tocConfig (some contentList) cover).2 =
      max 1 (((extractTocEntries contentList config).length +
        (entriesPerPageOf ctx).toNat - 1) / (entriesPerPageOf ctx).toNat) ∧
    (insertTocPages ctx tocConfig (some contentList) cover).1.pages.length =
      ctx.pages.length + (insertTocPages ctx tocConfig (some contentList) cover).2 ∧
    (insertTocPages ctx tocConfig (some contentList) cover).1.docPages.length =
      ctx.docPages.length + (insertTocPages ctx tocConfig (some contentList) cover).2 := by
  have hne' : (extractTocEntries contentList config).length ≠ 0 := by
    simpa [List.length_eq_zero] using hne
  rw [insertTocPages_spec ctx tocConfig contentList cover config hr hne']
  have hcount : tocPageCountOf ctx (extractTocEntries contentList config).length =
      max 1 (((extractTocEntries contentList config).length +
        (entriesPerPageOf ctx).toNat - 1) / (entriesPerPageOf ctx).toNat) := by
    have hE : entriesPerPageOf ctx = ((entriesPerPageOf ctx).toNat : ℤ) :=
      (Int.toNat_of_nonneg (le_of_lt hpos)).symm
    simp only [tocPageCountOf]
    conv_lhs => rw [hE]
    exact toc_page_count_eq _ _ (by omega)
  exact ⟨hcount, by simp [insertPagesAt_length], by simp [insertPagesAt_length]⟩

/-! ## Anchor-id lemmas (claim C9) -/

theorem char_eq_iff_toNat {c d : Char} : c = d ↔ c.toNat = d.toNat := by
  constructor
  · intro h; rw [h]
  · intro h
    exact Char.ext (UInt32.ext h)

theorem toNat_ofNat_of_lt {n : Nat} (h : n < 55296) : (Char.ofNat n).toNat = n := by
  have hv : Nat.isValidChar n := Or.inl h
  simp only [Char.ofNat, dif_pos hv, Char.ofNatAux, Char.toNat]
  rfl

theorem toLower_not_upper (c : Char) :
    ¬(65 ≤ (Char.toLower c).toNat ∧ (Char.toLower c).toNat ≤ 90) := by
  unfold Char.toLower
  by_cases h : c.toNat ≥ 65 ∧ c.toNat ≤ 90
  · simp only [if_pos h]
    have h2 : c.toNat + 32 < 55296 := by omega
    rw [toNat_ofNat_of_lt h2]
    omega
  · simp only [if_neg h]
    omega

theorem toLower_eq_self {c : Char} (h : ¬(65 ≤ c.toNat ∧ c.toNat ≤ 90)) :
    Char.toLower c = c := by
  unfold Char.toLower
  simp only [if_neg h]

theorem word_not_space {c : Char} (h : jsIsWordChar c = true) : jsIsSpace c = false := by
  rw [← Bool.not_eq_true]
  intro hs
  simp only [jsIsWordChar, Bool.or_eq_true, Bool.and_eq_true, decide_eq_true_eq] at h
  simp only [jsIsSpace, Bool.or_eq_true, Bool.and_eq_true, decide_eq_true_eq] at hs
  omega

theorem hyphen_not_space : jsIsSpace '-' = false := by decide

theorem slugChar_not_space {c : Char} (h : slugChar c) : jsIsSpace c = false := by
  rcases h with ⟨hw, -⟩ | rfl
  · exact word_not_space hw
  · exact hyphen_not_space

theorem slugChar_keep {c : Char} (h : slugChar c) : keepAnchorChar c = true := by
  rcases h with ⟨hw, -⟩ | rfl
  · simp [keepAnchorChar, hw]
  · decide

theorem slugChar_toLower {c : Char} (h : slugChar c) : Char.toLower c = c := by
  rcases h with ⟨-, hnu⟩ | rfl
  · exact toLower_eq_self hnu
  · rfl

theorem mem_collapseRuns (p : Char → Bool) (rep : Char) :
    ∀ (cs : List Char) (b : Bool) (c : Char), c ∈ collapseRuns p rep b cs →
      c = rep ∨ (c ∈ cs ∧ p c = false) := by
  intro cs
  induction cs with
  | nil => intro b c h; simp [collapseRuns] at h
  | cons a cs ih =>
    intro b c h
    rw [collapseRuns] at h
    by_cases hp : p a = true
    · rw [if_pos hp] at h
      cases b with
      | true =>
        rcases ih true c h with h1 | ⟨h1, h2⟩
        · exact Or.inl h1
        · exact Or.inr ⟨List.mem_cons_of_mem _ h1, h2⟩
      | false =>
        rcases List.mem_cons.mp h with rfl | h1
        · exact Or.inl rfl
        · rcases ih true c h1 with h2 | ⟨h2, h3⟩
          · exact Or.inl h2
          · exact Or.inr ⟨List.mem_cons_of_mem _ h2, h3⟩
    · rw [if_neg hp] at h
      rcases List.mem_cons.mp h with rfl | h1
      · exact Or.inr ⟨List.mem_cons_self _ _, by simpa using hp⟩
      · rcases ih false c h1 with h2 | ⟨h2, h3⟩
        · exact Or.inl h2
        · exact Or.inr ⟨List.mem_cons_of_mem _ h2, h3⟩

theorem collapseRuns_head_false (p : Char → Bool) (rep : Char) :
    ∀ (cs : List Char) (d : Char), (collapseRuns p rep true cs).head? = some d →
      p d = false := by
  intro cs
  induction cs with
  | nil => intro d h; simp [collapseRuns] at h
  | cons a cs ih =>
    intro d h
    rw [collapseRuns] at h
    by_cases hp : p a = true
    · rw [if_pos hp] at h
      exact ih d (by simpa using h)
    · rw [if_neg hp] at h
      simp only [List.head?_cons, Option.some.injEq] at h
      subst h
      simpa using hp

theorem chain'_collapseRuns (p : Char → Bool) (rep : Char) :
    ∀ (cs : List Char) (b : Bool),
      List.Chain' (fun x y => ¬(p x = true ∧ p y = true)) (collapseRuns p rep b cs) := by
  intro cs
  induction cs with
  | nil => intro b; simp [collapseRuns]
  | cons a cs ih =>
    intro b
    rw [collapseRuns]
    by_cases hp : p a = true
    · rw [if_pos hp]
      cases b with
      | true => exact ih true
      | false =>
        rw [if_neg (by simp)]
        rw [List.chain'_cons']
        refine ⟨?_, ih true⟩
        intro y hy hcon
        rw [collapseRuns_head_false p rep cs y hy] at hcon
        exact absurd hcon.2 (by simp)
    · rw [if_neg hp]
      rw [List.chain'_cons']
      refine ⟨?_, ih false⟩
      intro y hy hcon
      exact hp hcon.1

theorem collapseRuns_eq_self (p : Char → Bool) (rep : Char) :
    ∀ (cs : List Char), (∀ c ∈ cs, p c = false) → ∀ b, collapseRuns p rep b cs = cs := by
  intro cs
  induction cs with
  | nil => intro _ b; rfl
  | cons a cs ih =>
    intro h b
    have ha : p a = false := h a (List.mem_cons_self _ _)
    rw [collapseRuns, if_neg (by simp [ha])]
    rw [ih (fun c hc => h c (List.mem_cons_of_mem _ hc)) false]

theorem collapseRuns_true_of_head (p : Char → Bool) (rep : Char) (cs : List Char)
    (h : ∀ d, cs.head? = some d → p d = false) :
    collapseRuns p rep true cs = collapseRuns p rep false cs := by
  cases cs with
  | nil => rfl
  | cons a cs =>
    have ha : p a = false := h a rfl
    rw [collapseRuns, collapseRuns, if_neg (by simp [ha]), if_neg (by simp [ha])]

theorem collapseRuns_false_eq_self (p : Char → Bool) (rep : Char)
    (hid : ∀ c, p c = true → c = rep) :
    ∀ cs : List Char, List.Chain' (fun x y => ¬(p x = true ∧ p y = true)) cs →
      collapseRuns p rep false cs = cs := by
  intro cs
  induction cs with
  | nil => intro _; rfl
  | cons a cs ih =>
    intro hch
    rw [List.chain'_cons'] at hch
    obtain ⟨hhead, htail⟩ := hch
    by_cases hp : p a = true
    · rw [collapseRuns, if_pos hp]
      have h1 : ∀ d, cs.head? = some d → p d = false := by
        intro d hd
        by_contra hpd
        exact hhead d hd ⟨hp, by simpa using hpd⟩
      rw [collapseRuns_true_of_head p rep cs h1, ih htail, hid a hp,
        if_neg (by simp : ¬false = true)]
    · rw [collapseRuns, if_neg hp, ih htail]

theorem dropLeadHyphen_subset :
    ∀ (cs : List Char) (c : Char), c ∈ dropLeadHyphen cs → c ∈ cs := by
  intro cs c h
  cases cs with
  | nil => simpa [dropLeadHyphen] using h
  | cons a cs =>
    rw [dropLeadHyphen] at h
    by_cases ha : a = '-'
    · rw [if_pos ha] at h
      exact List.mem_cons_of_mem _ h
    · rwa [if_neg ha] at h

theorem dropLeadHyphen_eq_self (cs : List Char)
    (h : ∀ d, cs.head? = some d → d ≠ '-') : dropLeadHyphen cs = cs := by
  cases cs with
  | nil => rfl
  | cons a cs =>
    rw [dropLeadHyphen, if_neg (h a rfl)]

theorem dropLeadHyphen_head (cs : List Char)
    (hch : List.Chain' (fun x y => ¬(x = '-' ∧ y = '-')) cs) :
    ∀ d, (dropLeadHyphen cs).head? = some d → d ≠ '-' := by
  cases cs with
  | nil => intro d h; simp [dropLeadHyphen] at h
  | cons a cs =>
    rw [List.chain'_cons'] at hch
    obtain ⟨hhead, -⟩ := hch
    intro d h
    rw [dropLeadHyphen] at h
    by_cases ha : a = '-'
    · rw [if_pos ha] at h
      intro hd
      exact hhead d h ⟨ha, hd⟩
    · rw [if_neg ha] at h
      simp only [List.head?_cons, Option.some.injEq] at h
      subst h
      exact ha

theorem dropLeadHyphen_chain {R : Char → Char → Prop} (cs : List Char)
    (hch : List.Chain' R cs) : List.Chain' R (dropLeadHyphen cs) := by
  cases cs with
  | nil => exact hch
  | cons a cs =>
    rw [dropLeadHyphen]
    by_cases ha : a = '-'
    · rw [if_pos ha]
      exact hch.tail
    · rwa [if_neg ha]

theorem head?_dropTrailHyphen (cs : List Char) :
    ∀ d, (dropTrailHyphen cs).head? = some d → cs.head? = some d := by
  induction cs using List.reverseRecOn with
  | nil => intro d h; simp [dropTrailHyphen, dropLeadHyphen] at h
  | append_singleton l a ih =>
    intro d h
    rw [dropTrailHyphen, List.reverse_append, List.reverse_singleton,
      List.singleton_append, dropLeadHyphen] at h
    by_cases ha : a = '-'
    · rw [if_pos ha, List.reverse_reverse] at h
      cases l with
      | nil => simp at h
      | cons x l =>
        simp only [List.head?_cons, Option.some.injEq] at h
        simp [h]
    · rw [if_neg ha] at h
      have : (a :: l.reverse).reverse = l ++ [a] := by
        rw [List.reverse_cons, List.reverse_reverse]
      rw [this] at h
      exact h

/-- Character-level soundness: the finished anchor id consists of
non-uppercase word characters and isolated hyphens, with no leading or
trailing hyphen. -/
theorem anchorPipeline_invariant (cs0 : List Char) :
    (∀ c ∈ anchorPipeline cs0, slugChar c) ∧
    List.Chain' (fun x y => ¬(x = '-' ∧ y = '-')) (anchorPipeline cs0) ∧
    (∀ d, (anchorPipeline cs0).head? = some d → d ≠ '-') ∧
    (∀ d, (anchorPipeline cs0).reverse.head? = some d → d ≠ '-') := by
  have hX0 : ∀ c ∈ (cs0.map Char.toLower).filter keepAnchorChar,
      keepAnchorChar c = true ∧ ¬(65 ≤ c.toNat ∧ c.toNat ≤ 90) := by
    intro c hc
    obtain ⟨hmem, hkeep⟩ := List.mem_filter.mp hc
    obtain ⟨c', -, rfl⟩ := List.mem_map.mp hmem
    exact ⟨hkeep, toLower_not_upper c'⟩
  have hX1 : ∀ c ∈ collapseRuns jsIsSpace '-' false
      ((cs0.map Char.toLower).filter keepAnchorChar), slugChar c := by
    intro c hc
    rcases mem_collapseRuns jsIsSpace '-' _ false c hc with rfl | ⟨hc0, hsp⟩
    · exact Or.inr rfl
    · obtain ⟨hkeep, hnu⟩ := hX0 c hc0
      by_cases hhy : c = '-'
      · exact Or.inr hhy
      · refine Or.inl ⟨?_, hnu⟩
        simp only [keepAnchorChar, Bool.or_eq_true, decide_eq_true_eq] at hkeep
        rcases hkeep with (hw | hs) | hh
        · exact hw
        · rw [hsp] at hs
          exact absurd hs (by simp)
        · exact absurd hh hhy
  have hX2chars : ∀ c ∈ collapseRuns (fun c => c = '-') '-' false
      (collapseRuns jsIsSpace '-' false ((cs0.map Char.toLower).filter keepAnchorChar)),
      slugChar c := by
    intro c hc
    rcases mem_collapseRuns _ '-' _ false c hc with rfl | ⟨hc1, -⟩
    · exact Or.inr rfl
    · exact hX1 c hc1
  have hX2chain : List.Chain' (fun x y => ¬(x = '-' ∧ y = '-'))
      (collapseRuns (fun c => c = '-') '-' false
        (collapseRuns jsIsSpace '-' false ((cs0.map Char.toLower).filter keepAnchorChar))) := by
    refine List.Chain'.imp ?_ (chain'_collapseRuns _ '-' _ false)
    intro x y h hcon
    exact h ⟨by simp [hcon.1], by simp [hcon.2]⟩
  have hYchars : ∀ c ∈ dropLeadHyphen (collapseRuns (fun c => c = '-') '-' false
      (collapseRuns jsIsSpace '-' false ((cs0.map Char.toLower).filter keepAnchorChar))),
      slugChar c :=
    fun c hc => hX2chars c (dropLeadHyphen_subset _ c hc)
  have hYchain := dropLeadHyphen_chain _ hX2chain
  have hYhead := dropLeadHyphen_head _ hX2chain
  have hrevchain : List.Chain' (fun x y => ¬(x = '-' ∧ y = '-'))
      (dropLeadHyphen (collapseRuns (fun c => c = '-') '-' false
        (collapseRuns jsIsSpace '-' false
          ((cs0.map Char.toLower).filter keepAnchorChar)))).reverse := by
    rw [List.chain'_reverse]
    refine List.Chain'.imp ?_ hYchain
    intro x y h hcon
    exact h ⟨hcon.2, hcon.1⟩
  refine ⟨?_, ?_, ?_, ?_⟩
  · intro c hc
    rw [anchorPipeline, dropTrailHyphen] at hc
    have hc2 := List.mem_reverse.mp hc
    have hc3 := dropLeadHyphen_subset _ c hc2
    have hc4 := List.mem_reverse.mp hc3
    exact hYchars c hc4
  · rw [anchorPipeline, dropTrailHyphen, List.chain'_reverse]
    refine List.Chain'.imp ?_ (dropLeadHyphen_chain _ hrevchain)
    intro x y h hcon
    exact h ⟨hcon.2, hcon.1⟩
  · intro d hd
    rw [anchorPipeline] at hd
    exact hYhead d (head?_dropTrailHyphen _ d hd)
  · intro d hd
    rw [anchorPipeline, dropTrailHyphen, List.reverse_reverse] at hd
    exact dropLeadHyphen_head _ hrevchain d hd

/-- Lowercasing fixes slug characters. -/
theorem map_toLower_slug (cs : List Char) (h : ∀ c ∈ cs, slugChar c) :
    cs.map Char.toLower = cs := by
  induction cs with
  | nil => rfl
  | cons a cs ih =>
    rw [List.map_cons, slugChar_toLower (h a (List.mem_cons_self _ _)),
      ih (fun c hc => h c (List.mem_cons_of_mem _ hc))]

/-- The removal pass keeps every slug character. -/
theorem filter_keep_slug (cs : List Char) (h : ∀ c ∈ cs, slugChar c) :
    cs.filter keepAnchorChar = cs := by
  induction cs with
  | nil => rfl
  | cons a cs ih =>
    rw [List.filter_cons, if_pos (slugChar_keep (h a (List.mem_cons_self _ _))),
      ih (fun c hc => h c (List.mem_cons_of_mem _ hc))]

/-- Character-level identity: the pipeline fixes any list already
satisfying the anchor-id invariant. -/
theorem anchorPipeline_eq_self (cs : List Char)
    (hchars : ∀ c ∈ cs, slugChar c)
    (hchain : List.Chain' (fun x y => ¬(x = '-' ∧ y = '-')) cs)
    (hhead : ∀ d, cs.head? = some d → d ≠ '-')
    (hlast : ∀ d, cs.reverse.head? = some d → d ≠ '-') :
    anchorPipeline cs = cs := by
  rw [anchorPipeline]
  rw [map_toLower_slug cs hchars, filter_keep_slug cs hchars]
  rw [collapseRuns_eq_self jsIsSpace '-' cs
    (fun c hc => slugChar_not_space (hchars c hc)) false]
  rw [collapseRuns_false_eq_self (fun c => c = '-') '-'
    (fun c hc => by simpa using hc) cs ?hch]
  case hch =>
    refine List.Chain'.imp ?_ hchain
    intro x y h hcon
    exact h ⟨by simpa using hcon.1, by simpa using hcon.2⟩
  rw [dropLeadHyphen_eq_self cs hhead, dropTrailHyphen,
    dropLeadHyphen_eq_self cs.reverse hlast, List.reverse_reverse]

/-- C9: `generateAnchorId` is deterministic and idempotent (a second
application returns its input unchanged), lowercases, strips non-word
characters, collapses whitespace runs and repeated hyphens to single
hyphens, and trims leading/trailing hyphens. -/
theorem C9_generateAnchorId_idempotent :
    (∀ s : String, generateAnchorId (generateAnchorId s) = generateAnchorId s) ∧
    generateAnchorId "Section 1: Overview!" = "section-1-overview" ∧
    generateAnchorId "  Hello  " = "hello" ∧
    generateAnchorId "a--b   c" = "a-b-c" := by
  refine ⟨fun s => ?_, rfl, rfl, rfl⟩
  obtain ⟨h1, h2, h3, h4⟩ := anchorPipeline_invariant s.toList
  show String.mk (anchorPipeline (String.mk (anchorPipeline s.toList)).toList) =
    String.mk (anchorPipeline s.toList)
  have hlist : (String.mk (anchorPipeline s.toList)).toList = anchorPipeline s.toList := rfl
  rw [hlist, anchorPipeline_eq_self _ h1 h2 h3 h4]

/-! ## Witnesses -/

/-- Witness for C3: one entry, page height 792 with 72-point margins
(30 entries per page), one TOC page inserted. -/
theorem C3_inserted_page_count_witness :
    (insertTocPages ⟨[⟨612, 792⟩], [⟨612, 792⟩], ⟨612, 792⟩, ⟨72, 72, 72, 72⟩, []⟩ (some {})
        (some [ContentElement.heading 1 "A"]) false).2 =
      max 1 (((extractTocEntries [ContentElement.heading 1 "A"]
          { enabled := true, title := "Table of Contents", minLevel := 1, maxLevel := 3,
            numbered := false, showPageNumbers := true }).length +
        (entriesPerPageOf ⟨[⟨612, 792⟩], [⟨612, 792⟩], ⟨612, 792⟩, ⟨72, 72, 72, 72⟩,
          []⟩).toNat - 1) /
        (entriesPerPageOf ⟨[⟨612, 792⟩], [⟨612, 792⟩], ⟨612, 792⟩, ⟨72, 72, 72, 72⟩,
          []⟩).toNat) ∧
    (insertTocPages ⟨[⟨612, 792⟩], [⟨612, 792⟩], ⟨612, 792⟩, ⟨72, 72, 72, 72⟩, []⟩ (some {})
        (some [ContentElement.heading 1 "A"]) false).1.pages.length =
      ([⟨612, 792⟩] : List PageSize).length +
        (insertTocPages ⟨[⟨612, 792⟩], [⟨612, 792⟩], ⟨612, 792⟩, ⟨72, 72, 72, 72⟩, []⟩
          (some {}) (some [ContentElement.heading 1 "A"]) false).2 ∧
    (insertTocPages ⟨[⟨612, 792⟩], [⟨612, 792⟩], ⟨612, 792⟩, ⟨72, 72, 72, 72⟩, []⟩ (some {})
        (some [ContentElement.heading 1 "A"]) false).1.docPages.length =
      ([⟨612, 792⟩] : List PageSize).length +
        (insertTocPages ⟨[⟨612, 792⟩], [⟨612, 792⟩], ⟨612, 792⟩, ⟨72, 72, 72, 72⟩, []⟩
          (some {}) (some [ContentElement.heading 1 "A"]) false).2 :=
  C3_inserted_page_count ⟨[⟨612, 792⟩], [⟨612, 792⟩], ⟨612, 792⟩, ⟨72, 72, 72, 72⟩, []⟩
    (some {}) [ContentElement.heading 1 "A"] false
    { enabled := true, title := "Table of Contents", minLevel := 1, maxLevel := 3,
      numbered := false, showPageNumbers := true }
    rfl (by decide)
    (by
      have h : entriesPerPageOf
          ⟨[⟨612, 792⟩], [⟨612, 792⟩], ⟨612, 792⟩, ⟨72, 72, 72, 72⟩, []⟩ =
          Rat.floor ((606 : ℚ) / 20) := by
        norm_num [entriesPerPageOf, tocContentHeight, TOC_TITLE_FONT_SIZE,
          TOC_TITLE_MARGIN_BOTTOM, TOC_ENTRY_LINE_HEIGHT]
      rw [h, rat_floor_eq_floor]
      have h2 : (1 : ℤ) ≤ ⌊(606 : ℚ) / 20⌋ := Int.le_floor.mpr (by norm_num)
      omega)

/-- Witness for C4: no TOC configuration at all is a no-op. -/
theorem C4_insertTocPages_noop_witness :
    insertTocPages ⟨[⟨612, 792⟩], [⟨612, 792⟩], ⟨612, 792⟩, ⟨72, 72, 72, 72⟩, []⟩
      none none false =
      (⟨[⟨612, 792⟩], [⟨612, 792⟩], ⟨612, 792⟩, ⟨72, 72, 72, 72⟩, []⟩, 0) :=
  (C4_insertTocPages_noop ⟨[⟨612, 792⟩], [⟨612, 792⟩], ⟨612, 792⟩, ⟨72, 72, 72, 72⟩, []⟩
    none none false).1 rfl

/-- Witness for C5 at a single level-1 entry. -/
theorem C5_assignNumbering_matches_spec_witness :
    assignNumbering [⟨"A", 1, "a", none, none⟩] =
      assignNumberingSpec [⟨"A", 1, "a", none, none⟩] :=
  C5_assignNumbering_matches_spec.1 [⟨"A", 1, "a", none, none⟩] (by decide)

/-- Witness for C7: one entry, empty drawn-element record, default 1. -/
theorem C7_unmatched_defaults_to_one_witness :
    ∃ e', (assignPageNumbersFromDrawnElements [⟨"A", 1, "a", none, none⟩] [] false).get? 0 =
        some e' ∧ e'.pageNumber = some 1 :=
  (C7_unmatched_defaults_to_one [⟨"A", 1, "a", none, none⟩] [] false).2 0
    ⟨"A", 1, "a", none, none⟩ rfl rfl (fun el h => absurd h (List.not_mem_nil el))

/-- Witness for C10 at entries with levels [2, 1], first entry. -/
theorem C10_numbering_components_witness :
    ∃ e parts, ([⟨"deep", 2, "d", none, none⟩, ⟨"top", 1, "t", none, none⟩] :
        List TocEntry).get? 0 = some e ∧
      List.length (parts : List Nat) =
        e.level - minLevelOf [⟨"deep", 2, "d", none, none⟩, ⟨"top", 1, "t", none, none⟩] + 1 ∧
      TocEntry.numbering ⟨"deep", 2, "d", some "0.1", none⟩ =
        some (String.intercalate "." (parts.map Nat.repr)) :=
  C10_numbering_components.1
    [⟨"deep", 2, "d", none, none⟩, ⟨"top", 1, "t", none, none⟩]
    (by decide) (by decide) 0 ⟨"deep", 2, "d", some "0.1", none⟩ rfl

end PdfGen
